import Mathlib

/-
Verification of the Hera Browser tab/session coordinator and persistence
gateway (src/index.ts, src/database.ts) against its design specification.

The embedding is shallow: the coordinator's mutable maps become explicit
state records, the SQLite tables become lists of typed rows in rowid
(insertion) order, uuid generation becomes a fresh-id counter, and the
renderer-bound `webContents.send` calls become elements of an emitted
message list.  `setImmediate` callbacks are modelled as a second, deferred
message list that is observed after all synchronously emitted messages of
the same handler invocation.
-/

set_option maxHeartbeats 1000000

namespace HeraBrowser

/-- One UI-bridge notification emitted by the tab coordinator in
src/index.ts (`mainWindow.webContents.send` and the view-level
`stopFindInPage` / `removeBrowserView` effects). -/
inductive UIMsg where
  | stopFind (id : Nat)
  | removeView (id : Nat)
  | tabSwitched (id : Nat)
  | findRestoreState
  | tabCreated (id : Nat)
  | tabClosed (id : Nat)
  deriving DecidableEq, Repr

/-- In-memory coordinator state of src/index.ts: `tabs` models the key set
of the `tabs`/`tabInfo` Maps in insertion-iteration order, `activeTabId`
the module-level pointer, and `nextId` the uuid generator (fresh ids). -/
structure CoordState where
  tabs : List Nat
  activeTabId : Option Nat
  nextId : Nat
  deriving DecidableEq, Repr

/-- JS `Map.set` restricted to keys: setting an existing key keeps the
iteration order, a new key is appended at the end. -/
def mapSet (l : List Nat) (id : Nat) : List Nat :=
  if id ∈ l then l else l ++ [id]

/-- `switchToTab` from src/index.ts:129-153.  Returns the new state, the
synchronously emitted messages, and the messages deferred via
`setImmediate` (the `find:restore-state` send). -/
def switchToTab (s : CoordState) (id : Nat) : CoordState × List UIMsg × List UIMsg :=
  if id ∈ s.tabs then
    let pre : List UIMsg :=
      match s.activeTabId with
      | some old => if old ∈ s.tabs then [.stopFind old, .removeView old] else []
      | none => []
    ({ s with activeTabId := some id }, pre ++ [.tabSwitched id], [.findRestoreState])
  else (s, [], [])

/-- `createNewTab` from src/index.ts:157-198: allocate a fresh id, insert
the view into the `tabs` map, switch to it, then send `tab-created`. -/
def createNewTab (s : CoordState) : CoordState × List UIMsg × List UIMsg :=
  let id := s.nextId
  let s1 : CoordState := { s with tabs := mapSet s.tabs id, nextId := s.nextId + 1 }
  let r := switchToTab s1 id
  (r.1, r.2.1 ++ [.tabCreated id], r.2.2)

/-- `closeTab` from src/index.ts:529-570: no-op on unknown id; otherwise
stop find, remove the view, delete the tab, send `tab-closed`; if the
closed tab was active, switch to the first remaining tab or, when none
remain, create a fresh default tab. -/
def closeTab (s : CoordState) (id : Nat) : CoordState × List UIMsg × List UIMsg :=
  if id ∈ s.tabs then
    let s1 : CoordState := { s with tabs := s.tabs.erase id }
    let sync0 : List UIMsg := [.stopFind id, .removeView id, .tabClosed id]
    if s.activeTabId = some id then
      match s1.tabs with
      | [] =>
        let r := createNewTab s1
        (r.1, sync0 ++ r.2.1, r.2.2)
      | first :: _ =>
        let r := switchToTab s1 first
        (r.1, sync0 ++ r.2.1, r.2.2)
    else (s1, sync0, [])
  else (s, [], [])

/-- A create/close command against the coordinator. -/
inductive TabOp where
  | create
  | close (id : Nat)
  deriving DecidableEq, Repr

/-- State reached after one coordinator operation. -/
def applyOp (s : CoordState) : TabOp → CoordState
  | .create => (createNewTab s).1
  | .close id => (closeTab s id).1

/-- State reached after a sequence of coordinator operations. -/
def runOps (s : CoordState) (ops : List TabOp) : CoordState :=
  ops.foldl applyOp s

/-- The coordinator's running invariant: some tab is active and the active
id is a member of the tab set (true of every state the program reaches
while running, since `createNewTab` activates the new tab). -/
def CoordInv (s : CoordState) : Prop :=
  ∃ a, s.activeTabId = some a ∧ a ∈ s.tabs

theorem mem_mapSet_self (l : List Nat) (id : Nat) : id ∈ mapSet l id := by
  unfold mapSet
  split
  · assumption
  · simp

theorem createNewTab_inv (s : CoordState) : CoordInv (createNewTab s).1 := by
  have hmem : s.nextId ∈ mapSet s.tabs s.nextId := mem_mapSet_self _ _
  refine ⟨s.nextId, ?_, ?_⟩ <;>
    simp [createNewTab, switchToTab, hmem]

theorem closeTab_inv (s : CoordState) (id : Nat) (h : CoordInv s) :
    CoordInv (closeTab s id).1 := by
  obtain ⟨a, ha, hmem⟩ := h
  unfold closeTab
  by_cases hid : id ∈ s.tabs
  · simp only [if_pos hid]
    by_cases hact : s.activeTabId = some id
    · simp only [if_pos hact]
      cases he : s.tabs.erase id with
      | nil =>
        have hc := createNewTab_inv { s with tabs := s.tabs.erase id }
        rw [show ({ s with tabs := s.tabs.erase id } : CoordState)
              = { s with tabs := ([] : List Nat) } from by rw [← he]] at hc
        simpa using hc
      | cons first rest =>
        have hfm : first ∈ s.tabs.erase id := by rw [he]; exact List.mem_cons_self _ _
        refine ⟨first, ?_, ?_⟩ <;> simp [switchToTab, he, hfm]
    · simp only [if_neg hact]
      have hne : a ≠ id := by
        intro hEq
        exact hact (hEq ▸ ha)
      exact ⟨a, ha, (List.mem_erase_of_ne hne).mpr hmem⟩
  · simpa [if_neg hid] using ⟨a, ha, hmem⟩

theorem applyOp_inv (s : CoordState) (op : TabOp) (h : CoordInv s) :
    CoordInv (applyOp s op) := by
  cases op with
  | create => exact createNewTab_inv s
  | close id => exact closeTab_inv s id h

theorem runOps_inv (ops : List TabOp) : ∀ s : CoordState, CoordInv s → CoordInv (runOps s ops) := by
  induction ops with
  | nil => intro s h; exact h
  | cons op rest ih =>
    intro s h
    exact ih (applyOp s op) (applyOp_inv s op h)

/-- C1: for every finite sequence of createTab and closeTab operations
starting from a coordinator state reached while running (some tab exists
and the active id is one of them), the tab set is non-empty after the
sequence completes: closing the last remaining tab always yields exactly
one replacement default tab, so the tab set is never empty. -/
theorem tabSet_nonempty_after_ops (s : CoordState) (ops : List TabOp)
    (h : CoordInv s) : (runOps s ops).tabs ≠ [] := by
  obtain ⟨a, _, hmem⟩ := runOps_inv ops s h
  exact List.ne_nil_of_mem hmem

/-- Witness for C1 at a concrete start state and operation sequence. -/
theorem tabSet_nonempty_after_ops_witness :
    CoordInv ⟨[0], some 0, 1⟩ ∧
      (runOps ⟨[0], some 0, 1⟩ [.close 0, .create, .close 1, .close 2]).tabs ≠ [] :=
  ⟨⟨0, rfl, by decide⟩,
    tabSet_nonempty_after_ops ⟨[0], some 0, 1⟩ [.close 0, .create, .close 1, .close 2]
      ⟨0, rfl, by decide⟩⟩

/-- Messages observed by the UI for one coordinator call: the synchronous
sends in order, followed by the `setImmediate`-deferred sends (which run
only after the current synchronous execution completes). -/
def observedMsgs (r : CoordState × List UIMsg × List UIMsg) : List UIMsg :=
  r.2.1 ++ r.2.2

/-- C6: for every switchTo(id) on a known tab id, the `tab-switched`
notification is delivered to the UI strictly before the
`find:restore-state` notification for that same switch: the observed
message sequence ends with `tabSwitched id` immediately followed by
`findRestoreState`, and no `findRestoreState` occurs earlier. -/
theorem tabSwitched_before_findRestore (s : CoordState) (id : Nat) (h : id ∈ s.tabs) :
    ∃ pre, observedMsgs (switchToTab s id)
        = pre ++ [UIMsg.tabSwitched id, UIMsg.findRestoreState] ∧
      UIMsg.findRestoreState ∉ pre := by
  unfold observedMsgs switchToTab
  rw [if_pos h]
  cases hact : s.activeTabId with
  | none => exact ⟨[], by simp, by simp⟩
  | some old =>
    by_cases hold : old ∈ s.tabs
    · exact ⟨[UIMsg.stopFind old, UIMsg.removeView old], by simp [hold], by simp⟩
    · exact ⟨[], by simp [hold], by simp⟩

/-- Witness for C6 at a concrete state and tab id. -/
theorem tabSwitched_before_findRestore_witness :
    (5 ∈ (⟨[5, 7], some 7, 8⟩ : CoordState).tabs) ∧
      ∃ pre, observedMsgs (switchToTab ⟨[5, 7], some 7, 8⟩ 5)
          = pre ++ [UIMsg.tabSwitched 5, UIMsg.findRestoreState] ∧
        UIMsg.findRestoreState ∉ pre :=
  ⟨by decide, tabSwitched_before_findRestore ⟨[5, 7], some 7, 8⟩ 5 (by decide)⟩

/-- One row of the `downloads` table (src/database.ts schema). -/
structure DownloadRow where
  id : String
  filename : String
  savePath : String
  totalBytes : Nat
  receivedBytes : Nat
  state : String
  timestamp : Nat
  deriving DecidableEq, Repr

/-- `addDownload` from src/database.ts: INSERT with receivedBytes 0 and
state `downloading`. -/
def addDownload (table : List DownloadRow) (id filename savePath : String)
    (totalBytes now : Nat) : List DownloadRow :=
  table ++ [⟨id, filename, savePath, totalBytes, 0, "downloading", now⟩]

/-- `updateDownloadProgress` from src/database.ts: UPDATE receivedBytes
WHERE id matches. -/
def updateDownloadProgress (table : List DownloadRow) (id : String)
    (receivedBytes : Nat) : List DownloadRow :=
  table.map (fun r => if r.id == id then { r with receivedBytes := receivedBytes } else r)

/-- `updateDownloadState` from src/database.ts: UPDATE state and savePath
WHERE id matches. -/
def updateDownloadState (table : List DownloadRow) (id state savePath : String) :
    List DownloadRow :=
  table.map (fun r => if r.id == id then { r with state := state, savePath := savePath } else r)

/-- The terminal state computed by the `item.once('done')` handler in
src/index.ts:763-783: `state === 'completed' ? 'completed' : 'failed'`. -/
def doneFinalState (hostState : String) : String :=
  if hostState == "completed" then "completed" else "failed"

/-- The persistence effect of the `item.once('done')` handler: write the
coerced terminal state and the final save path for this download id. -/
def downloadDoneHandler (table : List DownloadRow) (id hostState finalPath : String) :
    List DownloadRow :=
  updateDownloadState table id (doneFinalState hostState) finalPath

/-- C2 counterexample: a download that has received 100% of its declared
total bytes and is then reported by the host as `cancelled` is persisted
with state `failed`, not with the raw host-reported state `cancelled`. -/
theorem download_cancelled_persisted_as_failed :
    downloadDoneHandler [⟨"d1", "f.bin", "/dl/f.bin", 100, 100, "downloading", 5⟩]
        "d1" "cancelled" "/dl/f.bin"
      = [⟨"d1", "f.bin", "/dl/f.bin", 100, 100, "failed", 5⟩] ∧
    ("failed" : String) ≠ "cancelled" := by
  exact ⟨by decide, by decide⟩

/-- C2 amended: the completion handler never persists the raw host state:
it persists `completed` when the host reports `completed` and the literal
`failed` for every other host-reported terminal state, `cancelled`
included, whatever the received/total byte counts are. -/
theorem downloadDoneHandler_coerces_state (table : List DownloadRow)
    (id hostState finalPath : String) (h : hostState ≠ "completed") :
    (∀ r ∈ downloadDoneHandler table id hostState finalPath,
        r.id = id → r.state = "failed") ∧
    (∀ r ∈ downloadDoneHandler table id "completed" finalPath,
        r.id = id → r.state = "completed") := by
  constructor
  · intro r hr hid
    simp only [downloadDoneHandler, updateDownloadState, List.mem_map] at hr
    obtain ⟨a, _, ha⟩ := hr
    by_cases hEq : a.id = id
    · rw [if_pos (by simpa using hEq)] at ha
      rw [← ha]
      simp [doneFinalState, h]
    · rw [if_neg (by simpa using hEq)] at ha
      exact absurd (ha ▸ hid) hEq
  · intro r hr hid
    simp only [downloadDoneHandler, updateDownloadState, List.mem_map] at hr
    obtain ⟨a, _, ha⟩ := hr
    by_cases hEq : a.id = id
    · rw [if_pos (by simpa using hEq)] at ha
      rw [← ha]
      simp [doneFinalState]
    · rw [if_neg (by simpa using hEq)] at ha
      exact absurd (ha ▸ hid) hEq

/-- Witness for the amended C2 theorem at a concrete table and states. -/
theorem downloadDoneHandler_coerces_state_witness :
    (("cancelled" : String) ≠ "completed") ∧
    ((∀ r ∈ downloadDoneHandler [⟨"d1", "f.bin", "/dl/f.bin", 100, 100, "downloading", 5⟩]
          "d1" "cancelled" "/dl/f.bin", r.id = "d1" → r.state = "failed") ∧
     (∀ r ∈ downloadDoneHandler [⟨"d1", "f.bin", "/dl/f.bin", 100, 100, "downloading", 5⟩]
          "d1" "completed" "/dl/f.bin", r.id = "d1" → r.state = "completed")) :=
  ⟨by decide,
    downloadDoneHandler_coerces_state
      [⟨"d1", "f.bin", "/dl/f.bin", 100, 100, "downloading", 5⟩]
      "d1" "cancelled" "/dl/f.bin" (by decide)⟩

/-- One row of the `bookmarks` table (src/database.ts schema): NULL
`folder_id` (the "no folder" sibling group) is `none`. -/
structure BookmarkRow where
  id : String
  url : String
  title : String
  favicon : Option String
  folder_id : Option String
  position : Nat
  created_at : Nat
  updated_at : Nat
  deriving DecidableEq, Repr

/-- The sibling-group key the COUNT query uses: `folderId || null` in
src/database.ts maps both a missing and an empty-string folder id to SQL
NULL. -/
def normFolderId (fid : Option String) : Option String :=
  match fid with
  | some s => if s = "" then none else some s
  | none => none

/-- The sibling group of a folder id: the rows a
`WHERE folder_id IS ?` query sees for that key. -/
def sibGroup (table : List BookmarkRow) (fid : Option String) : List BookmarkRow :=
  table.filter (fun r => r.folder_id == fid)

/-- `addBookmark` from src/database.ts:198-223: the position is the
current COUNT(*) of the sibling group selected by `folderId || null`
(a missing or empty-string folder id counts the NULL group), but the
INSERT binds the raw folderId value (missing stored as NULL, the empty
string stored as ''); the INSERT fails (throws) on a duplicate primary
key and succeeds otherwise, appending the new row. -/
def addBookmark (table : List BookmarkRow) (id url title : String)
    (favicon : Option String) (folderId : Option String) (now : Nat) :
    Except String (List BookmarkRow) :=
  let pos := (sibGroup table (normFolderId folderId)).length
  if (table.map (fun r => r.id)).contains id then
    .error "UNIQUE constraint failed: bookmarks.id"
  else
    .ok (table ++ [⟨id, url, title, favicon, folderId, pos, now, now⟩])

/-- `removeBookmark` from src/database.ts:228-238: DELETE WHERE id
matches; remaining siblings are not renumbered. -/
def removeBookmark (table : List BookmarkRow) (id : String) : List BookmarkRow :=
  table.filter (fun r => !(r.id == id))

/-- One bookmark-store mutation. -/
inductive BmOp where
  | add (id url title : String) (favicon : Option String) (folderId : Option String) (now : Nat)
  | remove (id : String)
  deriving DecidableEq, Repr

/-- Table state after one bookmark mutation (a failed INSERT throws to the
caller and leaves the table unchanged). -/
def applyBmOp (table : List BookmarkRow) : BmOp → List BookmarkRow
  | .add id url title favicon folderId now =>
    match addBookmark table id url title favicon folderId now with
    | .ok t => t
    | .error _ => table
  | .remove id => removeBookmark table id

/-- Table state after a sequence of bookmark mutations. -/
def runBmOps (table : List BookmarkRow) (ops : List BmOp) : List BookmarkRow :=
  ops.foldl applyBmOp table

/-- Position uniqueness within every sibling group (including the
no-folder group), as claimed by the spec. -/
def PosUnique (table : List BookmarkRow) : Prop :=
  ∀ fid : Option String, ((sibGroup table fid).map (fun r => r.position)).Nodup

/-- Stronger structural invariant: in table order, the positions of every
sibling group are exactly 0, 1, ..., count-1. -/
def GroupsRange (table : List BookmarkRow) : Prop :=
  ∀ fid : Option String,
    (sibGroup table fid).map (fun r => r.position) = List.range (sibGroup table fid).length

/-- C5 counterexample, two failure modes.  First: add two root bookmarks,
remove the first, add a third; the new COUNT(*)-derived position collides
with a surviving row, so the no-folder group holds two rows with
position 1.  Second, with adds alone: two adds with an empty-string
folder id each count the NULL group (via `folderId || null`) but store
the row with folder_id '' raw, so the '' sibling group holds two rows
with position 0. -/
theorem bookmark_position_collision :
    ¬ PosUnique (runBmOps []
      [.add "a" "u1" "t1" none none 0, .add "b" "u2" "t2" none none 1,
       .remove "a", .add "c" "u3" "t3" none none 2]) ∧
    ¬ PosUnique (runBmOps []
      [.add "a" "u1" "t1" none (some "") 0, .add "b" "u2" "t2" none (some "") 1]) := by
  constructor
  · intro h
    have hn := h none
    revert hn
    decide
  · intro h
    have hn := h (some "")
    revert hn
    decide

theorem normFolderId_eq_of_ne (fid : Option String) (h : fid ≠ some "") :
    normFolderId fid = fid := by
  cases fid with
  | none => rfl
  | some s =>
    show (if s = "" then none else some s) = some s
    rw [if_neg (fun hs => h (by rw [hs]))]

theorem addBookmark_groupsRange (table : List BookmarkRow) (id url title : String)
    (favicon : Option String) (folderId : Option String) (now : Nat)
    (hne : folderId ≠ some "")
    (h : GroupsRange table) :
    GroupsRange (applyBmOp table (.add id url title favicon folderId now)) := by
  show GroupsRange (match addBookmark table id url title favicon folderId now with
    | .ok t => t
    | .error _ => table)
  cases hres : addBookmark table id url title favicon folderId now with
  | error e => exact h
  | ok t =>
    unfold addBookmark at hres
    rw [normFolderId_eq_of_ne folderId hne] at hres
    by_cases hc : (table.map (fun r => r.id)).contains id = true
    · rw [if_pos hc] at hres
      cases hres
    · rw [if_neg hc] at hres
      injection hres with ht
      subst ht
      intro fid
      simp only [sibGroup, List.filter_append]
      by_cases hf : fid = folderId
      · subst hf
        rw [List.filter_cons_of_pos (by simp)]
        simp only [List.filter_nil, List.map_append, List.length_append, List.map_cons,
          List.map_nil, List.length_cons, List.length_nil]
        have hh := h fid
        simp only [sibGroup] at hh
        rw [hh]
        simp [sibGroup, List.range_succ]
      · rw [List.filter_cons_of_neg (by
          intro hEq
          exact hf (beq_iff_eq.mp hEq).symm)]
        simp only [List.filter_nil, List.append_nil]
        have hh := h fid
        simpa [sibGroup] using hh

theorem runAdds_groupsRange (adds : List (String × String × String × Option String × Option String × Nat)) :
    ∀ table : List BookmarkRow, GroupsRange table →
      (∀ p ∈ adds, p.2.2.2.2.1 ≠ some "") →
      GroupsRange (runBmOps table
        (adds.map (fun p => BmOp.add p.1 p.2.1 p.2.2.1 p.2.2.2.1 p.2.2.2.2.1 p.2.2.2.2.2))) := by
  induction adds with
  | nil => intro table h _; exact h
  | cons a rest ih =>
    intro table h hne
    exact ih _
      (addBookmark_groupsRange table a.1 a.2.1 a.2.2.1 a.2.2.2.1 a.2.2.2.2.1 a.2.2.2.2.2
        (hne a (List.mem_cons_self a rest)) h)
      (fun p hp => hne p (List.mem_cons_of_mem a hp))

/-- C5 amended: in sequences consisting of addBookmark operations only
(no removals) in which no operation passes an empty-string folder id,
starting from a table whose sibling-group positions are contiguous and
zero-based, every sibling group keeps pairwise-unique, contiguous
zero-based positions.  Both exclusions are forced: removeBookmark does not
renumber the survivors, so a removal before an insertion can duplicate a
position; and `folderId || null` normalizes the empty string to NULL only
in the COUNT query while the INSERT stores it raw, so two empty-string
adds also duplicate position 0 (see the counterexample for both). -/
theorem bookmark_positions_unique_add_only (table : List BookmarkRow)
    (adds : List (String × String × String × Option String × Option String × Nat))
    (h : GroupsRange table)
    (hne : ∀ p ∈ adds, p.2.2.2.2.1 ≠ some "") :
    GroupsRange (runBmOps table
      (adds.map (fun p => BmOp.add p.1 p.2.1 p.2.2.1 p.2.2.2.1 p.2.2.2.2.1 p.2.2.2.2.2))) ∧
    PosUnique (runBmOps table
      (adds.map (fun p => BmOp.add p.1 p.2.1 p.2.2.1 p.2.2.2.1 p.2.2.2.2.1 p.2.2.2.2.2))) := by
  have hg := runAdds_groupsRange adds table h hne
  refine ⟨hg, fun fid => ?_⟩
  rw [hg fid]
  exact List.nodup_range _

/-- Witness for the amended C5 theorem: two inserts into distinct
(non-empty-string) groups from the empty table. -/
theorem bookmark_positions_unique_add_only_witness :
    GroupsRange ([] : List BookmarkRow) ∧
    (∀ p ∈ ([("a", "u1", "t1", none, none, 0), ("b", "u2", "t2", none, some "f", 1)] :
        List (String × String × String × Option String × Option String × Nat)),
      p.2.2.2.2.1 ≠ some "") ∧
    (GroupsRange (runBmOps []
        ([("a", "u1", "t1", none, none, 0), ("b", "u2", "t2", none, some "f", 1)].map
          (fun p => BmOp.add p.1 p.2.1 p.2.2.1 p.2.2.2.1 p.2.2.2.2.1 p.2.2.2.2.2))) ∧
     PosUnique (runBmOps []
        ([("a", "u1", "t1", none, none, 0), ("b", "u2", "t2", none, some "f", 1)].map
          (fun p => BmOp.add p.1 p.2.1 p.2.2.1 p.2.2.2.1 p.2.2.2.2.1 p.2.2.2.2.2)))) :=
  ⟨fun _ => rfl, by decide,
    bookmark_positions_unique_add_only []
      [("a", "u1", "t1", none, none, 0), ("b", "u2", "t2", none, some "f", 1)]
      (fun _ => rfl) (by decide)⟩

/-- Insertion step of the insertion-sort model used for SQL ORDER BY. -/
def insertLe {α : Type} (le : α → α → Bool) (x : α) : List α → List α
  | [] => [x]
  | y :: ys => if le x y then x :: y :: ys else y :: insertLe le x ys

/-- Insertion sort modelling a SQL ORDER BY with comparison `le`. -/
def sortLe {α : Type} (le : α → α → Bool) : List α → List α
  | [] => []
  | x :: xs => insertLe le x (sortLe le xs)

theorem mem_insertLe {α : Type} (le : α → α → Bool) (x a : α) (l : List α) :
    a ∈ insertLe le x l ↔ a = x ∨ a ∈ l := by
  induction l with
  | nil => simp [insertLe]
  | cons y ys ih =>
    unfold insertLe
    by_cases h : le x y = true
    · rw [if_pos h]
      simp [List.mem_cons]
    · rw [if_neg h]
      simp only [List.mem_cons, ih]
      tauto

theorem pairwise_insertLe {α : Type} (le : α → α → Bool)
    (htot : ∀ a b, le a b = true ∨ le b a = true)
    (htrans : ∀ a b c, le a b = true → le b c = true → le a c = true)
    (x : α) (l : List α) (h : l.Pairwise (fun a b => le a b = true)) :
    (insertLe le x l).Pairwise (fun a b => le a b = true) := by
  induction l with
  | nil => simp [insertLe]
  | cons y ys ih =>
    rcases List.pairwise_cons.mp h with ⟨hy, hys⟩
    unfold insertLe
    by_cases hxy : le x y = true
    · rw [if_pos hxy]
      refine List.pairwise_cons.mpr ⟨?_, h⟩
      intro z hz
      rcases List.mem_cons.mp hz with rfl | hz'
      · exact hxy
      · exact htrans x y z hxy (hy z hz')
    · rw [if_neg hxy]
      refine List.pairwise_cons.mpr ⟨?_, ih hys⟩
      intro z hz
      rcases (mem_insertLe le x z ys).mp hz with hzx | hz'
      · rw [hzx]
        rcases htot x y with hx | hyx
        · exact absurd hx hxy
        · exact hyx
      · exact hy z hz'

theorem sortLe_pairwise {α : Type} (le : α → α → Bool)
    (htot : ∀ a b, le a b = true ∨ le b a = true)
    (htrans : ∀ a b c, le a b = true → le b c = true → le a c = true)
    (l : List α) : (sortLe le l).Pairwise (fun a b => le a b = true) := by
  induction l with
  | nil => simp [sortLe]
  | cons x xs ih => exact pairwise_insertLe le htot htrans x _ ih

theorem insertLe_perm {α : Type} (le : α → α → Bool) (x : α) (l : List α) :
    List.Perm (insertLe le x l) (x :: l) := by
  induction l with
  | nil => simp [insertLe]
  | cons y ys ih =>
    unfold insertLe
    by_cases h : le x y = true
    · rw [if_pos h]
    · rw [if_neg h]
      exact (List.Perm.cons y ih).trans (List.Perm.swap x y ys)

theorem sortLe_perm {α : Type} (le : α → α → Bool) (l : List α) :
    List.Perm (sortLe le l) l := by
  induction l with
  | nil => exact List.Perm.refl []
  | cons x xs ih => exact (insertLe_perm le x (sortLe le xs)).trans (List.Perm.cons x ih)

theorem insertLe_eq_cons_of_forall {α : Type} (le : α → α → Bool) (x : α) (l : List α)
    (h : ∀ y ∈ l, le x y = true) : insertLe le x l = x :: l := by
  cases l with
  | nil => rfl
  | cons y ys =>
    unfold insertLe
    rw [if_pos (h y (List.mem_cons_self y ys))]

theorem sortLe_eq_self_of_pairwise {α : Type} (le : α → α → Bool) (l : List α)
    (h : l.Pairwise (fun a b => le a b = true)) : sortLe le l = l := by
  induction l with
  | nil => rfl
  | cons x xs ih =>
    rcases List.pairwise_cons.mp h with ⟨hx, hxs⟩
    unfold sortLe
    rw [ih hxs]
    exact insertLe_eq_cons_of_forall le x xs hx

/-- A TabState value as passed to `saveTabsState` (src/types): the
in-memory snapshot of one tab. -/
structure TabState where
  id : String
  url : String
  title : String
  favicon : Option String
  position : Nat
  active : Bool
  deriving DecidableEq, Repr

/-- One row of the `open_tabs` table: `active` is stored as INTEGER 1/0,
a missing favicon as NULL (`none`). -/
structure TabRow where
  id : String
  url : String
  title : String
  favicon : Option String
  position : Nat
  active : Nat
  deriving DecidableEq, Repr

/-- The INSERT of `saveTabsState`: `tab.active ? 1 : 0`. -/
def toRow (t : TabState) : TabRow :=
  ⟨t.id, t.url, t.title, t.favicon, t.position, if t.active then 1 else 0⟩

/-- The row mapping of `getTabsState`: `favicon: row.favicon || undefined`
(SQL NULL and the empty string both become undefined) and
`active: row.active === 1`. -/
def rowToState (r : TabRow) : TabState :=
  ⟨r.id, r.url, r.title,
    (match r.favicon with | some "" => none | f => f),
    r.position, r.active == 1⟩

/-- `saveTabsState` from src/database.ts:361-386 with an explicit failure
point.  The function first runs `DELETE FROM open_tabs` as its own
autocommitted statement, then runs all INSERTs inside one
`db.transaction`.  `failAt = some k` (k < number of rows) models the k-th
INSERT throwing: the transaction rolls the INSERTs back, but the already
committed DELETE stands, and the error propagates (`throw error` in the
catch).  Returns the resulting `open_tabs` table and whether the call
returned normally. -/
def saveTabsStateRun (prior : List TabRow) (tabsArg : List TabState)
    (failAt : Option Nat) : List TabRow × Bool :=
  match failAt with
  | none => (tabsArg.map toRow, true)
  | some k => if k < tabsArg.length then ([], false) else (tabsArg.map toRow, true)

/-- ORDER BY position ASC comparison on `open_tabs` rows. -/
def posLe (a b : TabRow) : Bool := decide (a.position ≤ b.position)

/-- `getTabsState` from src/database.ts:391-415: SELECT ORDER BY position
ASC, then map rows back to TabState values. -/
def getTabsState (table : List TabRow) : List TabState :=
  (sortLe posLe table).map rowToState

/-- C3 counterexample: with one prior saved row and a two-row replacement
whose second INSERT fails, the resulting store is empty: the prior rows
are already deleted (the DELETE ran outside the transaction and
autocommitted) and the new rows are rolled back — neither "prior snapshot
intact" nor "wholly replaced". -/
theorem saveTabsState_not_atomic :
    (saveTabsStateRun [toRow ⟨"old", "https://o.com", "Old", none, 0, true⟩]
        [⟨"a", "https://a.com", "A", none, 0, true⟩,
         ⟨"b", "https://b.com", "B", none, 1, false⟩] (some 1)).1 = [] ∧
    (saveTabsStateRun [toRow ⟨"old", "https://o.com", "Old", none, 0, true⟩]
        [⟨"a", "https://a.com", "A", none, 0, true⟩,
         ⟨"b", "https://b.com", "B", none, 1, false⟩] (some 1)).2 = false ∧
    [toRow ⟨"old", "https://o.com", "Old", none, 0, true⟩] ≠ ([] : List TabRow) ∧
    ([⟨"a", "https://a.com", "A", none, 0, true⟩,
      ⟨"b", "https://b.com", "B", none, 1, false⟩] : List TabState).map toRow ≠ [] := by
  refine ⟨by decide, by decide, by decide, by decide⟩

/-- C3 amended: the multi-row INSERT itself is all-or-nothing (it runs in
one transaction), so the store never holds a proper subset of the new
rows; but the DELETE of the prior rows is executed outside that
transaction, so a failure during the insert leaves the store empty — the
prior snapshot is lost — rather than leaving the prior snapshot intact.
On a normal return the store holds exactly the new rows. -/
theorem saveTabsState_insert_all_or_nothing (prior : List TabRow)
    (tabsArg : List TabState) (failAt : Option Nat) :
    ((saveTabsStateRun prior tabsArg failAt).2 = true →
      (saveTabsStateRun prior tabsArg failAt).1 = tabsArg.map toRow) ∧
    ((saveTabsStateRun prior tabsArg failAt).2 = false →
      (saveTabsStateRun prior tabsArg failAt).1 = []) := by
  unfold saveTabsStateRun
  cases failAt with
  | none => simp
  | some k =>
    by_cases h : k < tabsArg.length <;> simp [h]

theorem rowToState_toRow_fields (t : TabState) :
    (rowToState (toRow t)).id = t.id ∧ (rowToState (toRow t)).url = t.url ∧
    (rowToState (toRow t)).title = t.title ∧ (rowToState (toRow t)).active = t.active := by
  cases t with
  | mk id url title favicon position active =>
    cases active <;> simp [rowToState, toRow]

/-- C7: for every list of tab snapshots with distinct ids, positions
0..n-1 in list order, and exactly one snapshot marked active, saving and
then restoring returns records with the same ids, addresses, titles and
active flags, in the same (position-derived) order. -/
theorem tabs_save_restore_roundtrip (prior : List TabRow) (tabsArg : List TabState)
    (hpos : ∀ (i : Nat) (h : i < tabsArg.length), (tabsArg.get ⟨i, h⟩).position = i)
    (hids : (tabsArg.map (fun t => t.id)).Nodup)
    (hact : (tabsArg.filter (fun t => t.active)).length = 1) :
    (getTabsState (saveTabsStateRun prior tabsArg none).1).map
        (fun t => (t.id, t.url, t.title, t.active))
      = tabsArg.map (fun t => (t.id, t.url, t.title, t.active)) := by
  have hsave : (saveTabsStateRun prior tabsArg none).1 = tabsArg.map toRow := rfl
  rw [hsave]
  unfold getTabsState
  have hpair : (tabsArg.map toRow).Pairwise (fun a b => posLe a b = true) := by
    rw [List.pairwise_map]
    rw [List.pairwise_iff_getElem]
    intro i j hi hj hij
    have h1 := hpos i hi
    have h2 := hpos j hj
    simp only [posLe, toRow, decide_eq_true_eq]
    simp only [List.get_eq_getElem] at h1 h2
    rw [h1, h2]
    exact Nat.le_of_lt hij
  rw [sortLe_eq_self_of_pairwise posLe _ hpair]
  rw [List.map_map, List.map_map]
  apply List.map_congr_left
  intro t _
  have hf := rowToState_toRow_fields t
  simp only [Function.comp_apply]
  rw [hf.1, hf.2.1, hf.2.2.1, hf.2.2.2]

/-- Witness for C7 at a concrete two-tab snapshot list. -/
theorem tabs_save_restore_roundtrip_witness :
    (∀ (i : Nat) (h : i < ([⟨"a", "https://a.com", "A", none, 0, false⟩,
        ⟨"b", "https://b.com", "B", none, 1, true⟩] : List TabState).length),
      (([⟨"a", "https://a.com", "A", none, 0, false⟩,
        ⟨"b", "https://b.com", "B", none, 1, true⟩] : List TabState).get ⟨i, h⟩).position = i) ∧
    (getTabsState (saveTabsStateRun []
        [⟨"a", "https://a.com", "A", none, 0, false⟩,
         ⟨"b", "https://b.com", "B", none, 1, true⟩] none).1).map
        (fun t => (t.id, t.url, t.title, t.active))
      = ([⟨"a", "https://a.com", "A", none, 0, false⟩,
          ⟨"b", "https://b.com", "B", none, 1, true⟩] : List TabState).map
          (fun t => (t.id, t.url, t.title, t.active)) :=
  ⟨by decide,
    tabs_save_restore_roundtrip []
      [⟨"a", "https://a.com", "A", none, 0, false⟩,
       ⟨"b", "https://b.com", "B", none, 1, true⟩]
      (by decide) (by decide) (by decide)⟩

/-- `url.startsWith(p)` on the character-list representation. -/
def strStartsWith (s p : String) : Bool := p.toList.isPrefixOf s.toList

/-- One row of the `history` table (src/database.ts schema). -/
structure HistoryRow where
  id : Nat
  url : String
  title : String
  timestamp : Nat
  visit_count : Nat
  favicon : Option String
  deriving DecidableEq, Repr

/-- The `history` table in rowid (insertion) order together with its
AUTOINCREMENT id counter. -/
structure HistoryDb where
  rows : List HistoryRow
  nextId : Nat
  deriving DecidableEq, Repr

/-- SQL COALESCE on two nullable values: the first when non-NULL, else
the second. -/
def coalesce (a b : Option String) : Option String :=
  match a with
  | some fv => some fv
  | none => b

/-- `addHistoryEntry` from src/database.ts:116-148: internal hera://
addresses are ignored; otherwise the first row with this url (if any) gets
visit_count+1, a fresh timestamp/title and a COALESCE'd favicon, else a
new row with visit_count 1 is inserted. -/
def addHistoryEntry (db : HistoryDb) (url title : String) (favicon : Option String)
    (now : Nat) : HistoryDb :=
  if strStartsWith url "hera://" then db
  else
    match db.rows.find? (fun r => r.url == url) with
    | some existing =>
      { db with rows := db.rows.map (fun r =>
          if r.id == existing.id then
            { r with
              visit_count := r.visit_count + 1
              timestamp := now
              title := title
              favicon := coalesce favicon r.favicon }
          else r) }
    | none =>
      { rows := db.rows ++ [⟨db.nextId, url, title, now, 1, favicon⟩],
        nextId := db.nextId + 1 }

/-- One visit event: the title, optional favicon and `Date.now()` value
passed to `addHistoryEntry`. -/
structure Visit where
  title : String
  favicon : Option String
  now : Nat
  deriving DecidableEq, Repr

/-- Repeated `addHistoryEntry` calls for one address. -/
def addVisits (db : HistoryDb) (url : String) (vs : List Visit) : HistoryDb :=
  vs.foldl (fun d v => addHistoryEntry d url v.title v.favicon v.now) db

/-- AUTOINCREMENT invariant: every stored id is below the counter. -/
def IdBound (db : HistoryDb) : Prop := ∀ r ∈ db.rows, r.id < db.nextId

/-- There is exactly one row for `url`, carrying the given visit count,
timestamp and title, and its id is distinct from all other rows. -/
def OneRow (db : HistoryDb) (url : String) (cnt ts : Nat) (ttl : String) : Prop :=
  ∃ pre row suf, db.rows = pre ++ row :: suf ∧
    row.url = url ∧ row.visit_count = cnt ∧ row.timestamp = ts ∧ row.title = ttl ∧
    (∀ r ∈ pre, r.url ≠ url) ∧ (∀ r ∈ suf, r.url ≠ url) ∧
    (∀ r ∈ pre, r.id ≠ row.id) ∧ (∀ r ∈ suf, r.id ≠ row.id)

theorem find?_decomp {α : Type} (p : α → Bool) (row : α) (suf : List α) :
    ∀ pre : List α, (∀ r ∈ pre, p r = false) → p row = true →
      (pre ++ row :: suf).find? p = some row := by
  intro pre
  induction pre with
  | nil =>
    intro _ hrow
    simpa using List.find?_cons_of_pos suf hrow
  | cons a as ih =>
    intro hpre hrow
    have ha : p a = false := hpre a (List.mem_cons_self a as)
    rw [List.cons_append, List.find?_cons_of_neg _ (by simp [ha])]
    exact ih (fun r hr => hpre r (List.mem_cons_of_mem a hr)) hrow

theorem map_eq_self_of_forall {α : Type} (f : α → α) :
    ∀ l : List α, (∀ r ∈ l, f r = r) → l.map f = l := by
  intro l
  induction l with
  | nil => intro _; rfl
  | cons a as ih =>
    intro h
    simp only [List.map_cons]
    rw [h a (List.mem_cons_self a as), ih (fun r hr => h r (List.mem_cons_of_mem a hr))]

theorem map_update_decomp {α : Type} (f : α → α) (pre suf : List α) (row : α)
    (hpre : ∀ r ∈ pre, f r = r) (hsuf : ∀ r ∈ suf, f r = r) :
    (pre ++ row :: suf).map f = pre ++ f row :: suf := by
  rw [List.map_append, List.map_cons, map_eq_self_of_forall f pre hpre,
    map_eq_self_of_forall f suf hsuf]

theorem addHistoryEntry_insert (db : HistoryDb) (url title : String)
    (favicon : Option String) (now : Nat)
    (hurl : strStartsWith url "hera://" = false)
    (hfresh : ∀ r ∈ db.rows, r.url ≠ url)
    (hid : IdBound db) :
    OneRow (addHistoryEntry db url title favicon now) url 1 now title := by
  unfold addHistoryEntry
  rw [if_neg (by simp [hurl])]
  have hfind : db.rows.find? (fun r => r.url == url) = none := by
    rw [List.find?_eq_none]
    intro r hr
    simp [hfresh r hr]
  rw [hfind]
  refine ⟨db.rows, ⟨db.nextId, url, title, now, 1, favicon⟩, [], rfl, rfl, rfl, rfl, rfl,
    hfresh, by simp, ?_, by simp⟩
  intro r hr
  exact Nat.ne_of_lt (hid r hr)

theorem addHistoryEntry_update (db : HistoryDb) (url title : String)
    (favicon : Option String) (now : Nat) (cnt ts : Nat) (ttl : String)
    (hurl : strStartsWith url "hera://" = false)
    (h : OneRow db url cnt ts ttl) :
    OneRow (addHistoryEntry db url title favicon now) url (cnt + 1) now title := by
  obtain ⟨pre, row, suf, hrows, hru, hrc, hrt, hrttl, hpre, hsuf, hpreid, hsufid⟩ := h
  unfold addHistoryEntry
  rw [if_neg (by simp [hurl])]
  have hfind : db.rows.find? (fun r => r.url == url) = some row := by
    rw [hrows]
    exact find?_decomp _ row suf pre (fun r hr => by simp [hpre r hr]) (by simp [hru])
  rw [hfind]
  refine ⟨pre,
    ⟨row.id, row.url, title, now, row.visit_count + 1, coalesce favicon row.favicon⟩, suf,
    ?_, hru, ?_, rfl, rfl, hpre, hsuf, hpreid, hsufid⟩
  · show db.rows.map _ = _
    rw [hrows, map_update_decomp _ pre suf row
      (fun r hr => by simp [hpreid r hr])
      (fun r hr => by simp [hsufid r hr])]
    simp
  · show row.visit_count + 1 = cnt + 1
    rw [hrc]

theorem addHistoryEntry_idBound (db : HistoryDb) (url title : String)
    (favicon : Option String) (now : Nat) (h : IdBound db) :
    IdBound (addHistoryEntry db url title favicon now) := by
  unfold addHistoryEntry
  by_cases hu : strStartsWith url "hera://" = true
  · rw [if_pos hu]; exact h
  · rw [if_neg hu]
    cases hfind : db.rows.find? (fun r => r.url == url) with
    | some existing =>
      intro r hr
      simp only [List.mem_map] at hr
      obtain ⟨a, ha, hfa⟩ := hr
      rw [← hfa]
      by_cases hc : (a.id == existing.id) = true
      · rw [if_pos hc]
        exact h a ha
      · rw [if_neg hc]
        exact h a ha
    | none =>
      intro r hr
      simp only [List.mem_append, List.mem_singleton] at hr
      rcases hr with hr | hr
      · exact Nat.lt_succ_of_lt (h r hr)
      · rw [hr]
        exact Nat.lt_succ_self _

theorem getLastD_proj (rest : List Visit) (d1 d2 : Visit)
    (hn : d1.now = d2.now) (ht : d1.title = d2.title) :
    (rest.getLastD d1).now = (rest.getLastD d2).now ∧
    (rest.getLastD d1).title = (rest.getLastD d2).title := by
  cases rest with
  | nil => exact ⟨hn, ht⟩
  | cons a as =>
    rw [List.getLastD_cons, List.getLastD_cons]
    exact ⟨rfl, rfl⟩

theorem addVisits_oneRow (url : String) (hurl : strStartsWith url "hera://" = false) :
    ∀ (vs : List Visit) (db : HistoryDb) (cnt ts : Nat) (ttl : String),
      OneRow db url cnt ts ttl →
      OneRow (addVisits db url vs) url (cnt + vs.length)
        (vs.getLastD ⟨ttl, none, ts⟩).now (vs.getLastD ⟨ttl, none, ts⟩).title := by
  intro vs
  induction vs with
  | nil =>
    intro db cnt ts ttl h
    simpa [addVisits] using h
  | cons v rest ih =>
    intro db cnt ts ttl h
    have h1 := addHistoryEntry_update db url v.title v.favicon v.now cnt ts ttl hurl h
    have h2 := ih (addHistoryEntry db url v.title v.favicon v.now) (cnt + 1) v.now v.title h1
    have hproj := getLastD_proj rest ⟨v.title, none, v.now⟩ v rfl rfl
    simp only [addVisits, List.foldl_cons] at h2 ⊢
    rw [List.getLastD_cons, ← hproj.1, ← hproj.2, List.length_cons,
      show cnt + (rest.length + 1) = (cnt + 1) + rest.length by omega]
    exact h2

/-- C4: for every address A not under the hera:// scheme and not yet in
the history table, after n >= 1 addHistoryEntry calls for A there is
exactly one history row whose url is A, its visit_count is n, and its
timestamp and title are those of the last visit; and for every address
under the internal scheme, addHistoryEntry records nothing. -/
theorem history_dedup (db : HistoryDb) (url : String) (vs : List Visit) (v : Visit)
    (hurl : strStartsWith url "hera://" = false)
    (hfresh : ∀ r ∈ db.rows, r.url ≠ url)
    (hid : IdBound db)
    (hlast : vs.getLast? = some v) :
    (((addVisits db url vs).rows.filter (fun r => r.url == url)).length = 1) ∧
    (∀ r ∈ (addVisits db url vs).rows, r.url = url →
      r.visit_count = vs.length ∧ r.timestamp = v.now ∧ r.title = v.title) ∧
    (∀ (d : HistoryDb) (u t : String) (f : Option String) (n : Nat),
      strStartsWith u "hera://" = true → addHistoryEntry d u t f n = d) := by
  cases vs with
  | nil => cases hlast
  | cons w rest =>
    have h1 := addHistoryEntry_insert db url w.title w.favicon w.now hurl hfresh hid
    have h2 := addVisits_oneRow url hurl rest
      (addHistoryEntry db url w.title w.favicon w.now) 1 w.now w.title h1
    have hlast' : rest.getLastD w = v := by
      rw [List.getLastD_eq_getLast?]
      rw [List.getLast?_cons] at hlast
      exact Option.some.inj hlast
    have hproj := getLastD_proj rest ⟨w.title, none, w.now⟩ w rfl rfl
    have hts : (rest.getLastD ⟨w.title, none, w.now⟩).now = v.now := by
      rw [hproj.1, hlast']
    have httl : (rest.getLastD ⟨w.title, none, w.now⟩).title = v.title := by
      rw [hproj.2, hlast']
    rw [hts, httl] at h2
    have hav : addVisits db url (w :: rest)
        = addVisits (addHistoryEntry db url w.title w.favicon w.now) url rest := by
      simp [addVisits]
    rw [hav]
    obtain ⟨pre, row, suf, hrows, hru, hrc, hrt, hrttl, hpre, hsuf, _, _⟩ := h2
    refine ⟨?_, ?_, ?_⟩
    · rw [hrows, List.filter_append, List.filter_cons_of_pos (by simp [hru]),
        List.filter_eq_nil_iff.mpr (fun a ha => by simp [hpre a ha]),
        List.filter_eq_nil_iff.mpr (fun a ha => by simp [hsuf a ha])]
      rfl
    · intro r hr hrurl
      rw [hrows] at hr
      rcases List.mem_append.mp hr with hr | hr
      · exact absurd hrurl (hpre r hr)
      · rcases List.mem_cons.mp hr with hr | hr
        · rw [hr]
          exact ⟨by rw [hrc, List.length_cons]; omega, hrt, hrttl⟩
        · exact absurd hrurl (hsuf r hr)
    · intro d u t f n hu
      unfold addHistoryEntry
      rw [if_pos hu]

/-- Witness for C4: three visits to one external address from an empty
store. -/
theorem history_dedup_witness :
    (strStartsWith "https://a.com" "hera://" = false) ∧
    (∀ r ∈ (⟨[], 0⟩ : HistoryDb).rows, r.url ≠ "https://a.com") ∧
    IdBound ⟨[], 0⟩ ∧
    (([⟨"T1", none, 1⟩, ⟨"T2", none, 2⟩, ⟨"T3", none, 3⟩] : List Visit).getLast?
      = some ⟨"T3", none, 3⟩) ∧
    ((((addVisits ⟨[], 0⟩ "https://a.com"
          [⟨"T1", none, 1⟩, ⟨"T2", none, 2⟩, ⟨"T3", none, 3⟩]).rows.filter
        (fun r => r.url == "https://a.com")).length = 1) ∧
     (∀ r ∈ (addVisits ⟨[], 0⟩ "https://a.com"
          [⟨"T1", none, 1⟩, ⟨"T2", none, 2⟩, ⟨"T3", none, 3⟩]).rows,
        r.url = "https://a.com" → r.visit_count = 3 ∧ r.timestamp = 3 ∧ r.title = "T3") ∧
     (∀ (d : HistoryDb) (u t : String) (f : Option String) (n : Nat),
        strStartsWith u "hera://" = true → addHistoryEntry d u t f n = d)) :=
  ⟨by decide, by simp, by simp [IdBound], by decide,
    history_dedup ⟨[], 0⟩ "https://a.com"
      [⟨"T1", none, 1⟩, ⟨"T2", none, 2⟩, ⟨"T3", none, 3⟩] ⟨"T3", none, 3⟩
      (by decide) (by simp) (by simp [IdBound]) (by decide)⟩

/-- The runtime type guard `isHistoryEntry` (src type guards): it only
checks JS typeof shapes, which hold for every well-typed row, so on the
typed embedding it is constantly true. -/
def isHistoryEntryGuard (_ : HistoryRow) : Bool := true

/-- `validateHistoryEntries`: keep the rows that pass the guard, in
order. -/
def validateHistoryEntries (l : List HistoryRow) : List HistoryRow :=
  l.filter isHistoryEntryGuard

/-- ORDER BY timestamp DESC comparison on history rows. -/
def tsDescLe (a b : HistoryRow) : Bool := decide (b.timestamp ≤ a.timestamp)

/-- `getHistory` from src/database.ts:153-178: SELECT ORDER BY timestamp
DESC LIMIT 1000, then run the rows through validateHistoryEntries. -/
def getHistory (db : HistoryDb) : List HistoryRow :=
  validateHistoryEntries ((sortLe tsDescLe db.rows).take 1000)

/-- C10: getHistory returns at most 1000 entries, ordered
most-recent-first by timestamp; the returned and omitted rows together are
exactly the stored rows, and every omitted row is at least as old as every
returned row. -/
theorem getHistory_limit_and_order (db : HistoryDb) :
    (getHistory db).length ≤ 1000 ∧
    (getHistory db).Pairwise (fun a b => b.timestamp ≤ a.timestamp) ∧
    List.Perm (getHistory db ++ (sortLe tsDescLe db.rows).drop 1000) db.rows ∧
    (∀ x ∈ (sortLe tsDescLe db.rows).drop 1000, ∀ y ∈ getHistory db,
      x.timestamp ≤ y.timestamp) := by
  have hval : getHistory db = (sortLe tsDescLe db.rows).take 1000 := by
    unfold getHistory validateHistoryEntries
    exact List.filter_eq_self.mpr (fun a _ => rfl)
  have htot : ∀ a b : HistoryRow, tsDescLe a b = true ∨ tsDescLe b a = true := by
    intro a b
    simp only [tsDescLe, decide_eq_true_eq]
    exact Nat.le_total b.timestamp a.timestamp
  have htrans : ∀ a b c : HistoryRow,
      tsDescLe a b = true → tsDescLe b c = true → tsDescLe a c = true := by
    intro a b c hab hbc
    simp only [tsDescLe, decide_eq_true_eq] at hab hbc ⊢
    exact Nat.le_trans hbc hab
  have hsorted := sortLe_pairwise tsDescLe htot htrans db.rows
  refine ⟨?_, ?_, ?_, ?_⟩
  · rw [hval]
    exact List.length_take_le 1000 _
  · rw [hval]
    have := hsorted.sublist (List.take_sublist 1000 (sortLe tsDescLe db.rows))
    exact this.imp (fun h => by simpa [tsDescLe] using h)
  · rw [hval, List.take_append_drop]
    exact sortLe_perm tsDescLe db.rows
  · intro x hx y hy
    rw [hval] at hy
    have hsplit := hsorted
    rw [← List.take_append_drop 1000 (sortLe tsDescLe db.rows)] at hsplit
    have := (List.pairwise_append.mp hsplit).2.2 y hy x hx
    simpa [tsDescLe] using this

/-- Character class [a-zA-Z0-9_-] of the setting-key pattern. -/
def isKeyChar (c : Char) : Bool := c.isAlphanum || c == '-' || c == '_'

/-- JS String.prototype.trim on the character list: strip whitespace from
both ends. -/
def trimChars (cs : List Char) : List Char :=
  ((cs.dropWhile Char.isWhitespace).reverse.dropWhile Char.isWhitespace).reverse

/-- `isValidSettingKey` from the runtime type guards: the trimmed key is
nonempty, at most 100 characters, and matches the [a-zA-Z0-9_-]+
pattern. -/
def isValidSettingKey (key : String) : Bool :=
  let t := trimChars key.toList
  !t.isEmpty && decide (t.length ≤ 100) && t.all isKeyChar

/-- INSERT ... ON CONFLICT(key) DO UPDATE on the settings table. -/
def upsertSetting : List (String × String) → String → String → List (String × String)
  | [], k, v => [(k, v)]
  | (k', v') :: rest, k, v =>
    if k' == k then (k, v) :: rest else (k', v') :: upsertSetting rest k v

/-- `setSetting` from src/database.ts:435-449: performs the upsert and
returns true; when the underlying write fails (`dbOk = false`) the error
is caught, logged and swallowed, and the function returns false. -/
def setSetting (store : List (String × String)) (key value : String) (dbOk : Bool) :
    List (String × String) × Bool :=
  if dbOk then (upsertSetting store key value, true) else (store, false)

/-- The ipcMain settings:set handler (src/index.ts:1223-1239): rejects an
invalid key, otherwise calls setSetting, ignores its boolean result, and
resolves with true. -/
def settingsSetHandler (store : List (String × String)) (key value : String) (dbOk : Bool) :
    Except String (List (String × String) × Bool) :=
  if !(isValidSettingKey key) then .error "Chave de configuracao invalida"
  else
    let r := setSetting store key value dbOk
    .ok (r.1, true)

/-- The history:clear handler (src/index.ts:1168-1175) calling
`clearHistory` (src/database.ts:183-193): the DELETE failure is rethrown
by clearHistory and rethrown again by the handler, so the rejection
reaches the caller. -/
def historyClearHandler (rows : List HistoryRow) (dbOk : Bool) :
    Except String (List HistoryRow) :=
  if dbOk then .ok [] else .error "Erro ao limpar historico"

/-- The bookmark:add handler (src/index.ts:1251-1272): validates url and
title (rejecting empty trims), then performs the database addBookmark
INSERT, which rethrows on a failed write; the handler catches, logs and
rethrows, so the rejection reaches the caller.  `dbOk` models whether the
underlying INSERT succeeds. -/
def bookmarkAddHandler (url title : String) (dbOk : Bool) : Except String Unit :=
  if (trimChars url.toList).isEmpty then .error "URL invalida"
  else if (trimChars title.toList).isEmpty then .error "Titulo invalido"
  else if dbOk then .ok () else .error "Erro ao adicionar favorito"

/-- C8 counterexample: a settings:set whose underlying persistence write
fails (setSetting returns false and leaves the store untouched) still
resolves successfully with true — the failed user-initiated write is
silently reported as successful. -/
theorem settings_set_silent_failure :
    settingsSetHandler [] "searchEngine" "brave" false
      = .ok ([], true) ∧
    (setSetting [] "searchEngine" "brave" false).2 = false := by
  exact ⟨rfl, rfl⟩

/-- C8 amended: clearing history and adding a bookmark propagate an
underlying write failure to the caller as a rejected operation, but
settings:set does not: setSetting swallows the failure and returns false,
the handler ignores that result and resolves with true whenever the key is
valid. -/
theorem write_failure_propagation (rows : List HistoryRow)
    (store : List (String × String)) (url title key value : String)
    (hkey : isValidSettingKey key = true) :
    (∃ e, historyClearHandler rows false = .error e) ∧
    (∃ e, bookmarkAddHandler url title false = .error e) ∧
    settingsSetHandler store key value false = .ok (store, true) := by
  refine ⟨⟨"Erro ao limpar historico", rfl⟩, ?_, ?_⟩
  · unfold bookmarkAddHandler
    by_cases h1 : (trimChars url.toList).isEmpty = true
    · rw [if_pos h1]
      exact ⟨_, rfl⟩
    · rw [if_neg h1]
      by_cases h2 : (trimChars title.toList).isEmpty = true
      · rw [if_pos h2]
        exact ⟨_, rfl⟩
      · rw [if_neg h2]
        exact ⟨_, rfl⟩
  · unfold settingsSetHandler
    rw [if_neg (by simp [hkey])]
    rfl

/-- Witness for the amended C8 theorem at a concrete key and inputs. -/
theorem write_failure_propagation_witness :
    isValidSettingKey "searchEngine" = true ∧
    ((∃ e, historyClearHandler [] false = .error e) ∧
     (∃ e, bookmarkAddHandler "https://a.com" "A" false = .error e) ∧
     settingsSetHandler [] "searchEngine" "brave" false = .ok ([], true)) :=
  ⟨by decide,
    write_failure_propagation [] [] "https://a.com" "A" "searchEngine" "brave" (by decide)⟩

/-- ASCII letter, digit or hyphen: the [a-zA-Z0-9-] class of the
domain-label pattern. -/
def isLabelChar (c : Char) : Bool := c.isAlphanum || c == '-'

/-- Consume one nonempty run of label characters followed by a literal
dot, returning the rest; none when the label-dot group cannot match here.
The dot is not a label character, so the group is deterministic. -/
def skipLabelDot (cs : List Char) : Option (List Char) :=
  match cs.takeWhile isLabelChar, cs.dropWhile isLabelChar with
  | _ :: _, c :: rest => if c == '.' then some rest else none
  | _, _ => none

/-- At least two ASCII letters at this position: an (unanchored-tail)
match of the TLD part of the pattern. -/
def twoLetters (cs : List Char) : Bool :=
  match cs with
  | a :: b :: _ => a.isAlpha && b.isAlpha
  | _ => false

/-- Fueled matcher for the domain branch — one or more label-dot groups
followed by at least two letters — anchored at the current position. -/
def domainAtF : Nat → List Char → Bool
  | 0, _ => false
  | fuel + 1, cs =>
    match skipLabelDot cs with
    | none => false
    | some rest => twoLetters rest || domainAtF fuel rest

/-- A match of the domain branch starting at this position; fuel
`cs.length` suffices since every label-dot group consumes at least two
characters. -/
def domainAt (cs : List Char) : Bool := domainAtF cs.length cs

/-- The three-branch alternation of the navigate-from-newtab regex tried
at one position: the ^-anchored protocol branch applies only at the start
of the string; the localhost branch and the domain branch apply at any
position. -/
def altMatchAt (atStart : Bool) (cs : List Char) : Bool :=
  (atStart && ("http://".toList.isPrefixOf cs || "https://".toList.isPrefixOf cs))
  || "localhost".toList.isPrefixOf cs
  || domainAt cs

/-- Try the alternation at this position and every later one (the
unanchored scan a JS RegExp.test performs from position 1 on). -/
def regexSearchFrom : List Char → Bool
  | [] => altMatchAt false []
  | c :: rest => altMatchAt false (c :: rest) || regexSearchFrom rest

/-- The `isUrl` regex test of the navigate-from-newtab branch
(src/index.ts:817): the anchor binds only to the first alternative, so
the protocol branch is tried at position 0 and all three branches at
every position. -/
def isUrlTest (s : String) : Bool :=
  match s.toList with
  | [] => altMatchAt true []
  | c :: rest => altMatchAt true (c :: rest) || regexSearchFrom rest

/-- The outcome of the navigate-from-newtab host for a url parameter. -/
inductive NavAction where
  | direct (finalUrl : String)
  | search (query : String)
  deriving DecidableEq, Repr

/-- The navigate-from-newtab decision (src/index.ts:809-839): a parameter
passing the isUrl test is loaded directly, with https:// prepended when no
explicit protocol prefix is present; otherwise it is sent to the
configured search engine as a query (the engine-URL assembly and
encodeURIComponent are elided: the claim concerns which branch runs). -/
def navigateFromNewtab (targetUrl : String) : NavAction :=
  if isUrlTest targetUrl then
    .direct (if strStartsWith targetUrl "http://" || strStartsWith targetUrl "https://"
      then targetUrl else "https://" ++ targetUrl)
  else .search targetUrl

/-- Whole-suffix variant of the TLD part: only letters remain, at least
two of them. -/
def lettersOnly2 (cs : List Char) : Bool :=
  decide (2 ≤ cs.length) && cs.all Char.isAlpha

/-- Fueled matcher for the domain pattern consuming the whole string. -/
def domainWholeF : Nat → List Char → Bool
  | 0, _ => false
  | fuel + 1, cs =>
    match skipLabelDot cs with
    | none => false
    | some rest => lettersOnly2 rest || domainWholeF fuel rest

/-- The whole string matches the domain-label-dot-TLD pattern. -/
def domainWholeMatch (cs : List Char) : Bool := domainWholeF cs.length cs

/-- The heuristic as the spec words it, for comparison with the code:
begins with an explicit transfer-protocol prefix, or begins with
localhost, or matches a domain-label-dot-TLD pattern. -/
def specLooksLikeUrl (s : String) : Bool :=
  strStartsWith s "http://" || strStartsWith s "https://" ||
  strStartsWith s "localhost" || domainWholeMatch s.toList

/-- C9 counterexample: the ^ anchor binds only to the protocol
alternative, so "what is localhost" — which merely contains localhost —
passes the isUrl test and is navigated directly (with https:// prepended),
although it neither begins with a protocol prefix, nor begins with
localhost, nor matches the domain pattern. -/
theorem navigate_from_newtab_counterexample :
    navigateFromNewtab "what is localhost" = .direct "https://what is localhost" ∧
    specLooksLikeUrl "what is localhost" = false := by
  exact ⟨by decide, by decide⟩

theorem exists_mem_or_split {α : Type} (l : List α) (p q : α → Prop) :
    (∃ t ∈ l, p t ∨ q t) ↔ (∃ t ∈ l, p t) ∨ (∃ t ∈ l, q t) := by
  constructor
  · rintro ⟨t, ht, hp | hq⟩
    · exact Or.inl ⟨t, ht, hp⟩
    · exact Or.inr ⟨t, ht, hq⟩
  · rintro (⟨t, ht, hp⟩ | ⟨t, ht, hq⟩)
    · exact ⟨t, ht, Or.inl hp⟩
    · exact ⟨t, ht, Or.inr hq⟩

theorem altMatchAt_false_iff (t : List Char) :
    altMatchAt false t = true ↔
      ("localhost".toList.isPrefixOf t = true ∨ domainAt t = true) := by
  simp [altMatchAt]

theorem regexSearchFrom_iff (cs : List Char) :
    regexSearchFrom cs = true ↔ ∃ t ∈ cs.tails, altMatchAt false t = true := by
  induction cs with
  | nil => decide
  | cons c rest ih =>
    simp only [regexSearchFrom, Bool.or_eq_true, ih, List.tails_cons, List.mem_cons]
    constructor
    · rintro (h | ⟨t, ht, hm⟩)
      · exact ⟨c :: rest, Or.inl rfl, h⟩
      · exact ⟨t, Or.inr ht, hm⟩
    · rintro ⟨t, (rfl | ht), hm⟩
      · exact Or.inl hm
      · exact Or.inr ⟨t, ht, hm⟩

theorem exists_cons_tails {p : List Char → Prop} (c : Char) (rest : List Char) :
    (∃ t ∈ (c :: rest).tails, p t) ↔ (p (c :: rest) ∨ ∃ t ∈ rest.tails, p t) := by
  rw [List.tails_cons]
  constructor
  · rintro ⟨t, ht, hp⟩
    rcases List.mem_cons.mp ht with rfl | ht'
    · exact Or.inl hp
    · exact Or.inr ⟨t, ht', hp⟩
  · rintro (hp | ⟨t, ht, hp⟩)
    · exact ⟨c :: rest, List.mem_cons_self _ _, hp⟩
    · exact ⟨t, List.mem_cons_of_mem _ ht, hp⟩

theorem isUrlTest_iff (s : String) :
    isUrlTest s = true ↔
      (strStartsWith s "http://" = true ∨ strStartsWith s "https://" = true ∨
       (∃ t ∈ s.toList.tails, "localhost".toList.isPrefixOf t = true) ∨
       (∃ t ∈ s.toList.tails, domainAt t = true)) := by
  unfold isUrlTest strStartsWith
  cases hcs : s.toList with
  | nil => decide
  | cons c rest =>
    rw [exists_cons_tails c rest, exists_cons_tails c rest]
    simp only [Bool.or_eq_true, regexSearchFrom_iff, altMatchAt_false_iff,
      exists_mem_or_split]
    simp only [altMatchAt, Bool.true_and, Bool.or_eq_true]
    itauto

/-- C9 amended: a string supplied as the url parameter is treated as a
navigable address (direct navigation) if and only if it begins with
http:// or https://, or contains localhost at any position, or contains a
match of the domain-label-dot-TLD pattern at any position (the ^ anchor of
the source regex binds only to the protocol alternative); every other
string is sent as a search query. -/
theorem navigateFromNewtab_direct_iff (s : String) :
    ((∃ u, navigateFromNewtab s = NavAction.direct u) ↔
      (strStartsWith s "http://" = true ∨ strStartsWith s "https://" = true ∨
       (∃ t ∈ s.toList.tails, "localhost".toList.isPrefixOf t = true) ∨
       (∃ t ∈ s.toList.tails, domainAt t = true))) ∧
    ((navigateFromNewtab s = NavAction.search s) ↔
      ¬ (strStartsWith s "http://" = true ∨ strStartsWith s "https://" = true ∨
       (∃ t ∈ s.toList.tails, "localhost".toList.isPrefixOf t = true) ∨
       (∃ t ∈ s.toList.tails, domainAt t = true))) := by
  have hiff := isUrlTest_iff s
  constructor
  · constructor
    · rintro ⟨u, hu⟩
      unfold navigateFromNewtab at hu
      by_cases h : isUrlTest s = true
      · exact hiff.mp h
      · rw [if_neg (by simp [h])] at hu
        cases hu
    · intro hc
      have h := hiff.mpr hc
      unfold navigateFromNewtab
      rw [if_pos h]
      exact ⟨_, rfl⟩
  · constructor
    · intro hs hc
      have h := hiff.mpr hc
      unfold navigateFromNewtab at hs
      rw [if_pos h] at hs
      cases hs
    · intro hc
      have h : ¬ isUrlTest s = true := fun hi => hc (hiff.mp hi)
      unfold navigateFromNewtab
      rw [if_neg h]

end HeraBrowser
